/-
Verification of the storage abstraction layer of the link-notes note-taking
application (src/services/FileSystemService.ts).

The TypeScript service is shallowly embedded below: every pure helper becomes
a Lean function over `String`/`List Char`, timestamps become `Nat`
(milliseconds), the in-memory service fields become an explicit
`ServiceState` record, the stateful backends (expo file system, SAF, and the
web localStorage blob) become explicit state values threaded through each
operation, and fallible I/O primitives return `Except`.  JavaScript
exceptions that the source catches are modelled by matching on the `Except`
result exactly where the source has its `try`/`catch`.
-/
import Mathlib

/-! ## Generic list/string helpers

JavaScript string primitives used by the service, modelled over `List Char`
(one entry per code point; the service only manipulates ASCII-ish paths). -/

/-- JS `String.prototype.split(sep)` for a one-character separator. -/
def splitChar (sep : Char) : List Char → List (List Char)
  | [] => [[]]
  | c :: rest =>
    if c = sep then [] :: splitChar sep rest
    else
      match splitChar sep rest with
      | [] => [[c]]
      | p :: ps => (c :: p) :: ps

/-- JS `Array.prototype.join(sep)` for a one-character separator. -/
def joinChar (sep : Char) : List (List Char) → List Char
  | [] => []
  | [p] => p
  | p :: ps => p ++ sep :: joinChar sep ps

/-- JS `String.prototype.startsWith`. -/
def jsStartsWith (s pre : String) : Bool :=
  pre.toList.isPrefixOf s.toList

/-- JS `String.prototype.includes` on char lists. -/
def containsSub (needle : List Char) : List Char → Bool
  | [] => needle.isEmpty
  | c :: t => needle.isPrefixOf (c :: t) || containsSub needle t

/-- JS `String.prototype.toLowerCase` (ASCII case folding). -/
def lowerL (cs : List Char) : List Char := cs.map Char.toLower

/-- JS whitespace test used by `String.prototype.trim`. -/
def isJsSpace (c : Char) : Bool := c = ' ' || c = '\t' || c = '\n' || c = '\r'

/-- JS `String.prototype.trim`. -/
def jsTrim (s : String) : String :=
  String.mk (((s.toList.dropWhile isJsSpace).reverse.dropWhile isJsSpace).reverse)

/-- Lookup in a JS `Map<string, α>` (association-list model). -/
def mapGet {α : Type} (k : String) : List (String × α) → Option α
  | [] => none
  | (k', v) :: rest => if k' = k then some v else mapGet k rest

/-- `Map.set` for the association-list model of a JS `Map`. -/
def mapSet {α : Type} (k : String) (v : α) : List (String × α) → List (String × α)
  | [] => [(k, v)]
  | (k', v') :: rest => if k' = k then (k, v) :: rest else (k', v') :: mapSet k v rest

/-! ## User preferences (lines 8–16, 724–789)

`JSON.parse` of a persisted payload is modelled as a record with one
`Option` per field: `none` means the field is absent from the payload, so
the object spread `{ ...DEFAULT_PREFERENCES, ...parsed }` keeps the
default for that field. -/

structure UserPreferences where
  showTimestamps : Bool
  welcomeCompleted : Bool
deriving DecidableEq, Repr

def DEFAULT_PREFERENCES : UserPreferences :=
  { showTimestamps := true, welcomeCompleted := false }

/-- A parsed persisted payload; a `none` field is absent from the JSON. -/
structure StoredPreferences where
  showTimestamps : Option Bool
  welcomeCompleted : Option Bool
deriving DecidableEq, Repr

/-- Object spread `{ ...base, ...payload }` for the preferences shape. -/
def mergePrefs (base : UserPreferences) (payload : StoredPreferences) : UserPreferences :=
  { showTimestamps := payload.showTimestamps.getD base.showTimestamps,
    welcomeCompleted := payload.welcomeCompleted.getD base.welcomeCompleted }

/-- Errors surfaced by the timeout-guarded AsyncStorage wrapper: either the
underlying backend rejected, or the 5-second timer fired first.  The two are
distinct constructors because the source builds a fresh `Error` with a
timeout-specific message (lines 26, 35, 44). -/
inductive StorageError where
  | backend (msg : String)
  | timeout (msg : String)
deriving DecidableEq, Repr

/-- `loadUserPreferences` (lines 724–742).  `fetched` is the outcome of
`asyncStorageWithTimeout.getItem('user_preferences')` followed by
`JSON.parse`: an error (storage failure, timeout, or a parse throw — all
caught by the same `catch`), a missing key, or a parsed payload. -/
def loadUserPreferences (fetched : Except StorageError (Option StoredPreferences)) :
    UserPreferences :=
  match fetched with
  | .error _ => DEFAULT_PREFERENCES
  | .ok none => DEFAULT_PREFERENCES
  | .ok (some payload) => mergePrefs DEFAULT_PREFERENCES payload

/-! ## Timeout-guarded AsyncStorage wrapper (lines 21–48)

`Promise.race([op, timer])` is modelled by describing the underlying
AsyncStorage promise as `Option (Nat × Except String α)`: `none` if it never
settles, `some (t, r)` if it settles after `t` milliseconds with outcome
`r`.  The race yields the operation's outcome when it settles strictly
before the timer, and the timeout rejection otherwise. -/

def promiseRaceTimeout {α : Type} (op : Option (Nat × Except String α))
    (timeoutMs : Nat) (timeoutMsg : String) : Except StorageError α :=
  match op with
  | none => .error (.timeout timeoutMsg)
  | some (t, r) =>
    if t < timeoutMs then
      match r with
      | .ok a => .ok a
      | .error e => .error (.backend e)
    else .error (.timeout timeoutMsg)

/-- Default `timeoutMs` parameter of the wrapper. -/
def defaultTimeoutMs : Nat := 5000

/-- `asyncStorageWithTimeout.getItem` (lines 22–29) with the default window. -/
def asyncStorageGetItem (key : String) (op : Option (Nat × Except String (Option String))) :
    Except StorageError (Option String) :=
  promiseRaceTimeout op defaultTimeoutMs ("AsyncStorage.getItem timeout for key: " ++ key)

/-- `asyncStorageWithTimeout.setItem` (lines 31–38) with the default window. -/
def asyncStorageSetItem (key : String) (op : Option (Nat × Except String Unit)) :
    Except StorageError Unit :=
  promiseRaceTimeout op defaultTimeoutMs ("AsyncStorage.setItem timeout for key: " ++ key)

/-- `asyncStorageWithTimeout.removeItem` (lines 40–47) with the default window. -/
def asyncStorageRemoveItem (key : String) (op : Option (Nat × Except String Unit)) :
    Except StorageError Unit :=
  promiseRaceTimeout op defaultTimeoutMs ("AsyncStorage.removeItem timeout for key: " ++ key)

/-! ## SAF URI to readable path (lines 225–274)

`decodeURIComponent` is modelled at byte level: each `%XX` with two hex
digits decodes to the character with that code, anything else after a `%`
throws (returns `none`); the source catches such a throw with its outer
`try` and returns the generic label. -/

def isHexDigit (c : Char) : Bool :=
  ('0' ≤ c && c ≤ '9') || ('a' ≤ c && c ≤ 'f') || ('A' ≤ c && c ≤ 'F')

def hexVal (c : Char) : Nat :=
  if '0' ≤ c && c ≤ '9' then c.toNat - '0'.toNat
  else if 'a' ≤ c && c ≤ 'f' then c.toNat - 'a'.toNat + 10
  else c.toNat - 'A'.toNat + 10

def percentDecode : List Char → Option (List Char)
  | [] => some []
  | '%' :: a :: b :: rest =>
    if isHexDigit a && isHexDigit b then
      (percentDecode rest).map (fun ds => Char.ofNat (hexVal a * 16 + hexVal b) :: ds)
    else none
  | '%' :: _ => none
  | c :: rest => (percentDecode rest).map (fun ds => c :: ds)

/-- The regex match `safUri.match(/\/tree\/(.+)$/)` (line 235): everything
after the first occurrence of `"/tree/"`.  (When that first occurrence is
followed by nothing the greedy `(.+)` fails there, and no later occurrence
can exist, so the whole match fails — handled in `treeSegment`.) -/
def afterTree : List Char → Option (List Char)
  | [] => none
  | c :: rest =>
    if ['/', 't', 'r', 'e', 'e', '/'].isPrefixOf (c :: rest) then
      some ((c :: rest).drop 6)
    else afterTree rest

def treeSegment (cs : List Char) : Option (List Char) :=
  match afterTree cs with
  | some [] => none
  | r => r

/-- `parseSafUriToReadablePath` (lines 225–274) on the char-list view. -/
def parseSafUriL (cs : List Char) : List Char :=
  if ¬ ("content://".toList.isPrefixOf cs) then cs
  else
    match treeSegment cs with
    | none => "Custom Folder".toList
    | some raw =>
      match percentDecode raw with
      | none => "Custom Folder".toList
      | some pathPart =>
        if "primary:".toList.isPrefixOf pathPart then
          let relativePath := pathPart.drop 8
          if relativePath = [] then "Internal Storage".toList else relativePath
        else if containsSub [':'] pathPart then
          let parts := splitChar ':' pathPart
          if parts.length ≥ 2 then
            let storageName := parts.headI
            let relativePath := joinChar ':' parts.tail
            if containsSub "sd".toList (lowerL storageName) ||
               containsSub "external".toList (lowerL storageName) then
              if relativePath = [] then "SD Card".toList
              else "SD Card/".toList ++ relativePath
            else if storageName = "primary".toList then
              if relativePath = [] then "Internal Storage".toList else relativePath
            else
              if relativePath = [] then storageName
              else storageName ++ '/' :: relativePath
          else if pathPart = [] then "Custom Folder".toList else pathPart
        else if pathPart = [] then "Custom Folder".toList else pathPart

def parseSafUriToReadablePath (safUri : String) : String :=
  String.mk (parseSafUriL safUri.toList)

/-! ## getParentPath (lines 827–848) -/

def getParentPath (currentPath rootPath : String) : Option String :=
  if currentPath = rootPath then none
  else if jsStartsWith currentPath "content://" then
    let pathParts := splitChar '/' currentPath.toList
    if pathParts.length > 4 then some (String.mk (joinChar '/' pathParts.dropLast))
    else some rootPath
  else
    let pathParts := splitChar '/' currentPath.toList
    if pathParts.length > 1 then
      let parentPath := String.mk (joinChar '/' pathParts.dropLast ++ ['/'])
      if parentPath.length ≥ rootPath.length then some parentPath else none
    else none

/-! ## Directory listing items and sorting (lines 1017–1041)

`a.name.localeCompare(b.name)` runs ICU root-locale collation; restricted to
the ASCII names the app produces this is: compare case-folded strings
code-point-wise (primary strength), and only on a primary tie fall back to a
code-point comparison of the raw strings (tertiary strength).  `Array.sort`
is modelled by `List.mergeSort` with the comparator-derived ordering
`cmp a b ≤ 0`, which is all ECMAScript guarantees about the result. -/

/-- Code-point lexicographic comparison of char lists. -/
def cmpL : List Char → List Char → Ordering
  | [], [] => .eq
  | [], _ :: _ => .lt
  | _ :: _, [] => .gt
  | a :: as, b :: bs =>
    if a.toNat < b.toNat then .lt
    else if b.toNat < a.toNat then .gt
    else cmpL as bs

/-- `String.prototype.localeCompare` (root locale, ASCII fragment). -/
def localeCompare (a b : String) : Int :=
  match cmpL (lowerL a.toList) (lowerL b.toList) with
  | .lt => -1
  | .gt => 1
  | .eq =>
    match cmpL a.toList b.toList with
    | .lt => -1
    | .gt => 1
    | .eq => 0

structure FolderItem where
  name : String
  path : String
  createdAt : Nat
  updatedAt : Nat
deriving DecidableEq, Repr

structure NoteItem where
  filename : String
  preview : String
  createdAt : Nat
  updatedAt : Nat
  filePath : String
deriving DecidableEq, Repr

structure DirectoryContents where
  folders : List FolderItem
  notes : List NoteItem
  currentPath : String
  parentPath : Option String
deriving DecidableEq, Repr

/-- Comparator `(a, b) => a.name.localeCompare(b.name)` as a sort order. -/
def folderLe (a b : FolderItem) : Bool := localeCompare a.name b.name ≤ 0

/-- Comparator `(a, b) => b.updatedAt.getTime() - a.updatedAt.getTime()` as a
sort order (descending by modification time). -/
def noteLe (a b : NoteItem) : Bool := b.updatedAt ≤ a.updatedAt

/-- `buildDirectoryContents` (lines 1020–1029). -/
def buildDirectoryContents (folders : List FolderItem) (notes : List NoteItem)
    (currentPath rootPath : String) : DirectoryContents :=
  { folders := folders.mergeSort folderLe,
    notes := notes.mergeSort noteLe,
    currentPath := currentPath,
    parentPath := getParentPath currentPath rootPath }

/-- `buildEmptyDirectoryContents` (lines 1034–1041). -/
def buildEmptyDirectoryContents (currentPath rootPath : String) : DirectoryContents :=
  { folders := [], notes := [], currentPath := currentPath,
    parentPath := getParentPath currentPath rootPath }

/-! ## Backends and service state

The three storage primitives become explicit state values:
* `NativeFs` models both the expo file system and the SAF document tree as a
  partial map from full path/URI to file content, plus a modification-time
  view and fault sets describing which paths' `unlink`/`write` calls the
  underlying platform rejects (the source's `catch` blocks make these
  rejections observable);
* the web backend is the parsed content of `localStorage.getItem('notes')`:
  `none` when the key is absent, otherwise the stored array.  Entries carry
  an `id : Option String` field because `getWebNote`/`deleteWebNote` match
  on `n.id` while `saveWebNote` persists the `Note` shape, which has no `id`
  (so entries written by this code always carry `id = none`). -/

structure Note where
  filename : String
  content : String
  createdAt : Nat
  updatedAt : Nat
  filePath : String
deriving DecidableEq, Repr

structure NotePreview where
  filename : String
  preview : String
  createdAt : Nat
  updatedAt : Nat
  filePath : String
deriving DecidableEq, Repr

structure StoredWebNote where
  id : Option String
  filename : String
  content : String
  createdAt : Nat
  updatedAt : Nat
  filePath : String
deriving DecidableEq, Repr

inductive FsError where
  | notFound
  | backend
deriving DecidableEq, Repr

structure NativeFs where
  files : String → Option String
  mtime : String → Nat
  unlinkFaults : String → Bool
  writeFaults : String → Bool

/-- `FileSystem.readAsStringAsync` / saf `readFile`: rejects when absent. -/
def readAsString (fs : NativeFs) (path : String) : Except FsError String :=
  match fs.files path with
  | some c => .ok c
  | none => .error .notFound

/-- `FileSystem.writeAsStringAsync` / saf `writeFile`: creates or overwrites. -/
def writeAsString (fs : NativeFs) (path content : String) : Except FsError NativeFs :=
  if fs.writeFaults path then .error .backend
  else .ok { fs with files := fun p => if p = path then some content else fs.files p }

/-- `FileSystem.deleteAsync` / saf `unlink`: rejects when absent or faulted. -/
def unlinkFile (fs : NativeFs) (path : String) : Except FsError NativeFs :=
  match fs.files path with
  | none => .error .notFound
  | some _ =>
    if fs.unlinkFaults path then .error .backend
    else .ok { fs with files := fun p => if p = path then none else fs.files p }

structure World where
  fs : NativeFs
  web : Option (List StoredWebNote)

/-- `Platform.OS` as the service branches on it: web vs. everything else. -/
inductive Platform where
  | web
  | native
deriving DecidableEq, Repr

/-- The mutable fields of the `FileSystemService` singleton. -/
structure ServiceState where
  platform : Platform
  notesDirectory : String
  customDirectory : Option String
  userPreferences : UserPreferences
  currentDirectory : Option String
  notesCache : List (String × List NotePreview)
  noteContentCache : List (String × Note)
  lastCacheUpdate : Nat
deriving Repr

/-- `cacheValidityDuration` (line 62): five minutes in milliseconds. -/
def cacheValidityDuration : Nat := 5 * 60 * 1000

/-- `getNotesDirectory` (lines 83–85): `customDirectory || notesDirectory`. -/
def getNotesDirectory (st : ServiceState) : String :=
  st.customDirectory.getD st.notesDirectory

/-- `clearCache` (lines 134–138). -/
def clearCache (st : ServiceState) : ServiceState :=
  { st with notesCache := [], noteContentCache := [], lastCacheUpdate := 0 }

/-- `isCacheValid` (lines 143–145): `Date.now() - lastCacheUpdate <
cacheValidityDuration` (truncated subtraction is exact here because the
cache stamp never exceeds the current clock). -/
def isCacheValid (st : ServiceState) (now : Nat) : Bool :=
  now - st.lastCacheUpdate < cacheValidityDuration

/-- The `targetDir` computation shared verbatim by `getNote` (503–519),
`saveNote` (592–608) and `deleteNote` (672–688). -/
def resolveTargetDir (rootDir : String) (folderPath : Option String) : String :=
  match folderPath with
  | some fp =>
    if fp ≠ "" ∧ jsTrim fp ≠ "" then
      if jsStartsWith rootDir "content://" then rootDir ++ "/" ++ fp
      else rootDir ++ fp ++ "/"
    else rootDir
  | none => rootDir

/-- Full path of a note file inside `targetDir` (SAF adds a separator,
plain paths already end in one). -/
def notePath (targetDir filename : String) : String :=
  if jsStartsWith targetDir "content://" then targetDir ++ "/" ++ filename ++ ".md"
  else targetDir ++ filename ++ ".md"

/-- Cache key of `getNote` (line 495): `` `note_${filename}_${folderPath || 'root'}` ``. -/
def noteCacheKey (filename : String) (folderPath : Option String) : String :=
  "note_" ++ filename ++ "_" ++
    (match folderPath with
     | some s => if s = "" then "root" else s
     | none => "root")

/-! ## Note operators -/

/-- `getWebNote` (lines 564–581): looks the note up by `n.id === id`. -/
def getWebNote (web : Option (List StoredWebNote)) (id : String) : Option Note :=
  match web with
  | none => none
  | some notes =>
    match notes.find? (fun n => n.id == some id) with
    | none => none
    | some n =>
      some { filename := n.filename, content := n.content,
             createdAt := n.createdAt, updatedAt := n.updatedAt,
             filePath := n.filePath }

/-- `saveWebNote` (lines 637–663): upserts by `filename`; the stored record
is the spread of the `Note` (hence `id := none`) with `updatedAt` set to the
current clock. -/
def saveWebNote (web : Option (List StoredWebNote)) (note : Note) (now : Nat) :
    Option (List StoredWebNote) :=
  let notes := web.getD []
  let noteData : StoredWebNote :=
    { id := none, filename := note.filename, content := note.content,
      createdAt := note.createdAt, updatedAt := now, filePath := note.filePath }
  match notes.findIdx? (fun n => n.filename == note.filename) with
  | some i => some (notes.set i noteData)
  | none => some (notes ++ [noteData])

/-- `deleteWebNote` (lines 708–719): returns silently when the key is
absent, filters by `n.id !== id`, and catches (only logs) its own errors, so
it always resolves. -/
def deleteWebNote (web : Option (List StoredWebNote)) (id : String) :
    Option (List StoredWebNote) × Except FsError Unit :=
  match web with
  | none => (none, .ok ())
  | some notes => (some (notes.filter (fun n => n.id != some id)), .ok ())

/-- `getNote` (lines 489–562).  Returns the updated state (the note-content
cache may gain an entry; note that the source does not refresh
`lastCacheUpdate` here) and `none` where the source returns `null` (its
`catch` absorbs every read error). -/
def getNote (st : ServiceState) (w : World) (now : Nat) (filename : String)
    (folderPath : Option String) : ServiceState × Option Note :=
  if st.platform = .web then (st, getWebNote w.web filename)
  else
    let cacheKey := noteCacheKey filename folderPath
    if isCacheValid st now ∧ (mapGet cacheKey st.noteContentCache).isSome then
      (st, mapGet cacheKey st.noteContentCache)
    else
      let targetDir := resolveTargetDir (getNotesDirectory st) folderPath
      let path := notePath targetDir filename
      match readAsString w.fs path with
      | .error _ => (st, none)
      | .ok content =>
        let m := w.fs.mtime path
        let note : Note :=
          { filename := filename, content := content, createdAt := m,
            updatedAt := m, filePath := path }
        ({ st with noteContentCache := mapSet cacheKey note st.noteContentCache },
         some note)

/-- `deleteNote` (lines 665–706): on web delegates to `deleteWebNote` (no
cache manipulation); natively unlinks the target and clears the whole cache
on success, rethrowing the platform error otherwise. -/
def deleteNote (st : ServiceState) (w : World) (id : String)
    (folderPath : Option String) : ServiceState × World × Except FsError Unit :=
  if st.platform = .web then
    let dr := deleteWebNote w.web id
    (st, { w with web := dr.1 }, dr.2)
  else
    let targetDir := resolveTargetDir (getNotesDirectory st) folderPath
    let path := notePath targetDir id
    match unlinkFile w.fs path with
    | .error e => (st, w, .error e)
    | .ok fs' => (clearCache st, { w with fs := fs' }, .ok ())

/-- `saveNote` (lines 583–635): on web delegates to `saveWebNote` (ignoring
`oldFilename`/`folderPath`, no cache manipulation); natively first deletes
the old file when the filename changed (swallowing any failure of that
delete, but keeping its state effects — in particular a successful inner
delete already cleared the cache), then writes the new file, rethrowing a
write failure and clearing the whole cache on success. -/
def saveNote (st : ServiceState) (w : World) (note : Note)
    (oldFilename folderPath : Option String) (now : Nat) :
    ServiceState × World × Except FsError Unit :=
  if st.platform = .web then (st, { w with web := saveWebNote w.web note now }, .ok ())
  else
    let targetDir := resolveTargetDir (getNotesDirectory st) folderPath
    let afterDelete :=
      match oldFilename with
      | some old =>
        if old ≠ note.filename then
          let d := deleteNote st w old folderPath
          (d.1, d.2.1)
        else (st, w)
      | none => (st, w)
    let st1 := afterDelete.1
    let w1 := afterDelete.2
    let path := notePath targetDir note.filename
    match writeAsString w1.fs path note.content with
    | .error e => (st1, w1, .error e)
    | .ok fs' => (clearCache st1, { w1 with fs := fs' }, .ok ())

/-- `getWebDirectoryContents` (lines 912–942): lists every stored web note
(`preview` falls back to the first 200 characters of content — stored
records written by `saveWebNote` carry no `preview` field), sorts them by
`updatedAt` descending, and reports no folders and no parent. -/
def getWebDirectoryContents (web : Option (List StoredWebNote))
    (targetPath : String) : DirectoryContents :=
  let notes :=
    (web.getD []).map (fun n =>
      { filename := n.filename,
        preview := String.mk (n.content.toList.take 200),
        createdAt := n.createdAt, updatedAt := n.updatedAt,
        filePath := n.filePath : NoteItem })
  { folders := [],
    notes := notes.mergeSort noteLe,
    currentPath := targetPath,
    parentPath := none }

/-! ## Preference accessors (lines 747–789) -/

/-- `saveUserPreferences` (lines 747–754): the in-memory record is replaced
by the spread merge before the persistence write is awaited, and a
rejection of the write (backend failure or timeout) is caught and only
logged, so the returned promise never rejects — hence the `Except Empty`
result type. -/
def saveUserPreferences (st : ServiceState) (p : StoredPreferences)
    (writeResult : Except StorageError Unit) : ServiceState × Except Empty Unit :=
  let st1 := { st with userPreferences := mergePrefs st.userPreferences p }
  match writeResult with
  | .ok _ => (st1, .ok ())
  | .error _ => (st1, .ok ())

/-- `getUserPreferences` (lines 759–761). -/
def getUserPreferences (st : ServiceState) : UserPreferences :=
  st.userPreferences

/-- `getShowTimestamps` (lines 766–768). -/
def getShowTimestamps (st : ServiceState) : Bool :=
  st.userPreferences.showTimestamps

/-- `setShowTimestamps` (lines 773–775): `saveUserPreferences({ showTimestamps })`. -/
def setShowTimestamps (st : ServiceState) (value : Bool)
    (writeResult : Except StorageError Unit) : ServiceState × Except Empty Unit :=
  saveUserPreferences st { showTimestamps := some value, welcomeCompleted := none } writeResult

/-- `getWelcomeCompleted` (lines 780–782). -/
def getWelcomeCompleted (st : ServiceState) : Bool :=
  st.userPreferences.welcomeCompleted

/-- `setWelcomeCompleted` (lines 787–789). -/
def setWelcomeCompleted (st : ServiceState) (value : Bool)
    (writeResult : Except StorageError Unit) : ServiceState × Except Empty Unit :=
  saveUserPreferences st { showTimestamps := none, welcomeCompleted := some value } writeResult

/-! ## C8: default-merge semantics of loadUserPreferences -/

/-- C8: for every persisted user-preferences payload, `loadUserPreferences`
merges the payload over the defaults `{ showTimestamps: true,
welcomeCompleted: false }`: a payload missing the `welcomeCompleted` field
yields `welcomeCompleted = false` (and one missing `showTimestamps` yields
`true`), while every field present in the payload keeps its persisted
value. -/
theorem loadUserPreferences_default_merge (payload : StoredPreferences) :
    (payload.welcomeCompleted = none →
      (loadUserPreferences (.ok (some payload))).welcomeCompleted = false) ∧
    (∀ b : Bool, payload.welcomeCompleted = some b →
      (loadUserPreferences (.ok (some payload))).welcomeCompleted = b) ∧
    (∀ b : Bool, payload.showTimestamps = some b →
      (loadUserPreferences (.ok (some payload))).showTimestamps = b) ∧
    (payload.showTimestamps = none →
      (loadUserPreferences (.ok (some payload))).showTimestamps = true) := by
  refine ⟨fun h => ?_, fun b h => ?_, fun b h => ?_, fun h => ?_⟩ <;>
    simp [loadUserPreferences, mergePrefs, DEFAULT_PREFERENCES, h]

/-- Witness for C8 at the concrete payload `{ showTimestamps: false }`. -/
theorem loadUserPreferences_default_merge_witness :
    (loadUserPreferences (.ok (some ⟨some false, none⟩))).welcomeCompleted = false ∧
    (loadUserPreferences (.ok (some ⟨some false, none⟩))).showTimestamps = false :=
  ⟨(loadUserPreferences_default_merge ⟨some false, none⟩).1 rfl,
   (loadUserPreferences_default_merge ⟨some false, none⟩).2.2.1 false rfl⟩

/-! ## C9: timeout protection of the preference store -/

/-- C9: a preference-store call (`getItem`, `setItem`, `removeItem`) whose
underlying AsyncStorage operation never settles fails with the
operation-specific Timeout error under the default 5000 ms window instead of
hanging; an operation settling before the timer wins the race (so the timer
is genuinely raced against the operation, backend errors passing through as
backend errors); and the timeout error is distinct from every
backend-reported error. -/
theorem asyncStorage_timeout_protection (key : String) :
    asyncStorageGetItem key none =
      .error (.timeout ("AsyncStorage.getItem timeout for key: " ++ key)) ∧
    asyncStorageSetItem key none =
      .error (.timeout ("AsyncStorage.setItem timeout for key: " ++ key)) ∧
    asyncStorageRemoveItem key none =
      .error (.timeout ("AsyncStorage.removeItem timeout for key: " ++ key)) ∧
    defaultTimeoutMs = 5000 ∧
    (∀ (t : Nat) (v : Option String), t < defaultTimeoutMs →
      asyncStorageGetItem key (some (t, .ok v)) = .ok v) ∧
    (∀ (t : Nat) (e : String), t < defaultTimeoutMs →
      asyncStorageGetItem key (some (t, .error e)) = .error (.backend e)) ∧
    (∀ m m' : String, StorageError.timeout m ≠ StorageError.backend m') := by
  refine ⟨rfl, rfl, rfl, rfl, fun t v ht => ?_, fun t e ht => ?_, fun m m' h => ?_⟩
  · simp [asyncStorageGetItem, promiseRaceTimeout, ht]
  · simp [asyncStorageGetItem, promiseRaceTimeout, ht]
  · cases h

/-- Witness for C9 at the key `"user_preferences"` and a concrete settled
operation. -/
theorem asyncStorage_timeout_protection_witness :
    asyncStorageGetItem "user_preferences" none =
      .error (.timeout "AsyncStorage.getItem timeout for key: user_preferences") ∧
    asyncStorageGetItem "user_preferences" (some (3, .ok (some "x"))) = .ok (some "x") :=
  ⟨(asyncStorage_timeout_protection "user_preferences").1,
   (asyncStorage_timeout_protection "user_preferences").2.2.2.2.1 3 (some "x") (by decide)⟩

/-! ## C10: saveUserPreferences never rejects -/

/-- C10: `saveUserPreferences` (and therefore `setShowTimestamps` and
`setWelcomeCompleted`) never rejects: the in-memory preferences record is
replaced with the merged value even when the persistence write fails or
times out, so `getUserPreferences`/`getShowTimestamps`/`getWelcomeCompleted`
observe the newly set value regardless of the write outcome. -/
theorem saveUserPreferences_never_rejects (st : ServiceState)
    (p : StoredPreferences) (r : Except StorageError Unit) (b : Bool) :
    (saveUserPreferences st p r).2 = .ok () ∧
    getUserPreferences (saveUserPreferences st p r).1 =
      mergePrefs st.userPreferences p ∧
    (setShowTimestamps st b r).2 = .ok () ∧
    getShowTimestamps (setShowTimestamps st b r).1 = b ∧
    (setWelcomeCompleted st b r).2 = .ok () ∧
    getWelcomeCompleted (setWelcomeCompleted st b r).1 = b := by
  cases r <;>
    simp [saveUserPreferences, getUserPreferences, getShowTimestamps,
      getWelcomeCompleted, setShowTimestamps, setWelcomeCompleted, mergePrefs]

/-! ## C3: getParentPath -/

/-- C3 (code bug, concrete evaluation): `getParentPath(root, root)` is
`null` and a SAF path one level below its root maps to the root, but for a
plain path one level below the root the function returns the path itself
instead of the root: `split('/')` on a slash-terminated path produces a
trailing empty segment, so dropping the last segment and re-appending `'/'`
reconstructs the input (the claim and spec require dropping the last
non-empty segment, which would yield the root). -/
theorem getParentPath_plain_subdir_bug :
    getParentPath "file:///Notes/" "file:///Notes/" = none ∧
    getParentPath "content://auth/tree/doc/sub" "content://auth/tree/doc" =
      some "content://auth/tree/doc" ∧
    getParentPath "file:///Notes/sub/" "file:///Notes/" =
      some "file:///Notes/sub/" ∧
    "file:///Notes/sub/" ≠ "file:///Notes/" := by
  refine ⟨rfl, by decide, by decide, by decide⟩

/-! ## C7: helper lemmas about split/join/contains -/

theorem splitChar_ne_nil (sep : Char) (l : List Char) : splitChar sep l ≠ [] := by
  cases l with
  | nil => simp [splitChar]
  | cons c rest =>
    simp only [splitChar]
    split
    · simp
    · cases h : splitChar sep rest <;> simp

theorem joinChar_splitChar (sep : Char) (l : List Char) :
    joinChar sep (splitChar sep l) = l := by
  induction l with
  | nil => rfl
  | cons c rest ih =>
    by_cases hc : c = sep
    · subst hc
      simp only [splitChar, if_pos rfl]
      cases h : splitChar c rest with
      | nil => exact absurd h (splitChar_ne_nil c rest)
      | cons p ps =>
        rw [h] at ih
        calc joinChar c ([] :: p :: ps) = c :: joinChar c (p :: ps) := rfl
          _ = c :: rest := by rw [ih]
    · simp only [splitChar, if_neg hc]
      cases h : splitChar sep rest with
      | nil => exact absurd h (splitChar_ne_nil sep rest)
      | cons p ps =>
        rw [h] at ih
        cases ps with
        | nil => simpa [joinChar] using congrArg (c :: ·) ih
        | cons q qs =>
          calc joinChar sep ((c :: p) :: q :: qs)
              = c :: joinChar sep (p :: q :: qs) := rfl
            _ = c :: rest := by rw [ih]

theorem splitChar_append_sep (sep : Char) (pre rest : List Char)
    (h : ∀ c ∈ pre, c ≠ sep) :
    splitChar sep (pre ++ sep :: rest) = pre :: splitChar sep rest := by
  induction pre with
  | nil => simp [splitChar]
  | cons c cs ih =>
    have hc : c ≠ sep := h c (by simp)
    simp only [List.cons_append, splitChar, if_neg hc]
    rw [show cs.append (sep :: rest) = cs ++ sep :: rest from rfl,
      ih (fun x hx => h x (by simp [hx]))]

theorem containsSub_sep_append (sep : Char) (pre rest : List Char) :
    containsSub [sep] (pre ++ sep :: rest) = true := by
  induction pre with
  | nil => simp [containsSub, List.isPrefixOf]
  | cons c cs ih => simp [containsSub, ih]

theorem containsSub_sep_eq_false (sep : Char) (l : List Char)
    (h : ∀ c ∈ l, c ≠ sep) : containsSub [sep] l = false := by
  induction l with
  | nil => rfl
  | cons c cs ih =>
    have hc : c ≠ sep := h c (by simp)
    simp [containsSub, List.isPrefixOf, Ne.symm hc,
      ih (fun x hx => h x (by simp [hx]))]


theorem parseSafUriL_not_content (cs : List Char)
    (hs : "content://".toList.isPrefixOf cs = false) : parseSafUriL cs = cs := by
  simp only [parseSafUriL, hs]
  simp

theorem parseSafUriL_no_tree (cs : List Char)
    (hs : "content://".toList.isPrefixOf cs = true)
    (htree : treeSegment cs = none) :
    parseSafUriL cs = "Custom Folder".toList := by
  simp only [parseSafUriL, hs, htree]
  simp

theorem parseSafUriL_bad_decode (cs raw : List Char)
    (hs : "content://".toList.isPrefixOf cs = true)
    (htree : treeSegment cs = some raw) (hdec : percentDecode raw = none) :
    parseSafUriL cs = "Custom Folder".toList := by
  simp only [parseSafUriL, hs, htree, hdec]
  simp

theorem parseSafUriL_primary (cs raw rest : List Char)
    (hs : "content://".toList.isPrefixOf cs = true)
    (htree : treeSegment cs = some raw)
    (hdec : percentDecode raw = some ("primary:".toList ++ rest)) :
    parseSafUriL cs = (if rest = [] then "Internal Storage".toList else rest) := by
  have hpre : ("primary:".toList).isPrefixOf ("primary:".toList ++ rest) = true :=
    List.isPrefixOf_iff_prefix.mpr (List.prefix_append _ _)
  have hdrop : List.drop 8 ("primary:".toList ++ rest) = rest :=
    List.drop_left "primary:".toList rest
  simp only [parseSafUriL, hs, htree, hdec, hpre, hdrop]
  simp

theorem parseSafUriL_sd (cs raw storage rel : List Char)
    (hs : "content://".toList.isPrefixOf cs = true)
    (htree : treeSegment cs = some raw)
    (hdec : percentDecode raw = some (storage ++ ':' :: rel))
    (hstor : ∀ c ∈ storage, c ≠ ':')
    (hnp : "primary:".toList.isPrefixOf (storage ++ ':' :: rel) = false)
    (hsd : (containsSub "sd".toList (lowerL storage) ||
      containsSub "external".toList (lowerL storage)) = true) :
    parseSafUriL cs =
      (if rel = [] then "SD Card".toList else "SD Card/".toList ++ rel) := by
  have hcol : containsSub [':'] (storage ++ ':' :: rel) = true :=
    containsSub_sep_append ':' storage rel
  have hsp : splitChar ':' (storage ++ ':' :: rel) = storage :: splitChar ':' rel :=
    splitChar_append_sep ':' storage rel hstor
  have hjoin : joinChar ':' (splitChar ':' rel) = rel := joinChar_splitChar ':' rel
  have hge : (storage :: splitChar ':' rel).length ≥ 2 := by
    have h2 : 0 < (splitChar ':' rel).length :=
      List.length_pos.mpr (splitChar_ne_nil ':' rel)
    simp only [List.length_cons]
    omega
  simp only [parseSafUriL, hs, htree, hdec, hnp, hcol, hsp, hge, hjoin,
    List.headI, List.tail_cons, if_true]
  rcases Bool.or_eq_true_iff.mp hsd with h | h
  · have h' : containsSub ['s', 'd'] (lowerL storage) = true := by simpa using h
    simp [h']
  · have h' : containsSub ['e', 'x', 't', 'e', 'r', 'n', 'a', 'l']
        (lowerL storage) = true := by simpa using h
    simp [h']

theorem parseSafUriL_other_authority (cs raw storage rel : List Char)
    (hs : "content://".toList.isPrefixOf cs = true)
    (htree : treeSegment cs = some raw)
    (hdec : percentDecode raw = some (storage ++ ':' :: rel))
    (hstor : ∀ c ∈ storage, c ≠ ':')
    (hnp : "primary:".toList.isPrefixOf (storage ++ ':' :: rel) = false)
    (hsd : (containsSub "sd".toList (lowerL storage) ||
      containsSub "external".toList (lowerL storage)) = false)
    (hprim : storage ≠ "primary".toList) :
    parseSafUriL cs =
      (if rel = [] then storage else storage ++ '/' :: rel) := by
  have hcol : containsSub [':'] (storage ++ ':' :: rel) = true :=
    containsSub_sep_append ':' storage rel
  have hsp : splitChar ':' (storage ++ ':' :: rel) = storage :: splitChar ':' rel :=
    splitChar_append_sep ':' storage rel hstor
  have hjoin : joinChar ':' (splitChar ':' rel) = rel := joinChar_splitChar ':' rel
  have hge : (storage :: splitChar ':' rel).length ≥ 2 := by
    have h2 : 0 < (splitChar ':' rel).length :=
      List.length_pos.mpr (splitChar_ne_nil ':' rel)
    simp only [List.length_cons]
    omega
  rcases Bool.or_eq_false_iff.mp hsd with ⟨h1, h2⟩
  simp only [parseSafUriL, hs, htree, hdec, hnp, hcol, hsp, hge, hjoin,
    List.headI, List.tail_cons, if_true, h1, h2, hprim]
  simp [hprim]

theorem parseSafUriL_no_colon (cs raw d : List Char)
    (hs : "content://".toList.isPrefixOf cs = true)
    (htree : treeSegment cs = some raw)
    (hdec : percentDecode raw = some d)
    (hd : ∀ c ∈ d, c ≠ ':')
    (hnp : "primary:".toList.isPrefixOf d = false) :
    parseSafUriL cs = (if d = [] then "Custom Folder".toList else d) := by
  have hcol : containsSub [':'] d = false := containsSub_sep_eq_false ':' d hd
  simp only [parseSafUriL, hs, htree, hdec, hnp, hcol]
  simp

/-- C7: behaviour of `parseSafUriToReadablePath`: a string that is not a
content URI is returned unmodified; a content URI without a tree segment
yields the generic `Custom Folder` label; a percent-decoding failure
degrades to the generic label instead of propagating; a `primary:`-prefixed
decoded segment is stripped to its remainder, or `Internal Storage` when
the remainder is empty; another authority is split on its first colon and
rendered `SD Card/<relative path>` (or `SD Card`) when the storage name
contains `sd` or `external`, and `<storage name>/<relative path>`
otherwise; a colon-free decoded segment is returned raw, or as the generic
label when empty; and the concrete handle
`content://auth/tree/primary:Documents` yields `Documents`. -/
theorem parseSafUri_readable_path_spec :
    (∀ s : String, jsStartsWith s "content://" = false →
      parseSafUriToReadablePath s = s) ∧
    (∀ s : String, jsStartsWith s "content://" = true →
      treeSegment s.toList = none →
      parseSafUriToReadablePath s = "Custom Folder") ∧
    (∀ (s : String) (raw : List Char), jsStartsWith s "content://" = true →
      treeSegment s.toList = some raw → percentDecode raw = none →
      parseSafUriToReadablePath s = "Custom Folder") ∧
    (∀ (s : String) (raw rest : List Char), jsStartsWith s "content://" = true →
      treeSegment s.toList = some raw →
      percentDecode raw = some ("primary:".toList ++ rest) →
      parseSafUriToReadablePath s =
        (if rest = [] then "Internal Storage" else String.mk rest)) ∧
    (∀ (s : String) (raw storage rel : List Char),
      jsStartsWith s "content://" = true →
      treeSegment s.toList = some raw →
      percentDecode raw = some (storage ++ ':' :: rel) →
      (∀ c ∈ storage, c ≠ ':') →
      "primary:".toList.isPrefixOf (storage ++ ':' :: rel) = false →
      (containsSub "sd".toList (lowerL storage) ||
        containsSub "external".toList (lowerL storage)) = true →
      parseSafUriToReadablePath s =
        (if rel = [] then "SD Card" else String.mk ("SD Card/".toList ++ rel))) ∧
    (∀ (s : String) (raw storage rel : List Char),
      jsStartsWith s "content://" = true →
      treeSegment s.toList = some raw →
      percentDecode raw = some (storage ++ ':' :: rel) →
      (∀ c ∈ storage, c ≠ ':') →
      "primary:".toList.isPrefixOf (storage ++ ':' :: rel) = false →
      (containsSub "sd".toList (lowerL storage) ||
        containsSub "external".toList (lowerL storage)) = false →
      storage ≠ "primary".toList →
      parseSafUriToReadablePath s =
        (if rel = [] then String.mk storage
         else String.mk (storage ++ '/' :: rel))) ∧
    (∀ (s : String) (raw d : List Char), jsStartsWith s "content://" = true →
      treeSegment s.toList = some raw → percentDecode raw = some d →
      (∀ c ∈ d, c ≠ ':') →
      "primary:".toList.isPrefixOf d = false →
      parseSafUriToReadablePath s =
        (if d = [] then "Custom Folder" else String.mk d)) ∧
    parseSafUriToReadablePath "content://auth/tree/primary:Documents" =
      "Documents" := by
  refine ⟨?_, ?_, ?_, ?_, ?_, ?_, ?_, by decide⟩
  · intro s hs
    show String.mk (parseSafUriL s.toList) = s
    rw [parseSafUriL_not_content s.toList hs]
    exact String.ext rfl
  · intro s hs htree
    show String.mk (parseSafUriL s.toList) = _
    rw [parseSafUriL_no_tree s.toList hs htree]
    exact String.ext rfl
  · intro s raw hs htree hdec
    show String.mk (parseSafUriL s.toList) = _
    rw [parseSafUriL_bad_decode s.toList raw hs htree hdec]
    exact String.ext rfl
  · intro s raw rest hs htree hdec
    show String.mk (parseSafUriL s.toList) = _
    rw [parseSafUriL_primary s.toList raw rest hs htree hdec]
    rcases eq_or_ne rest [] with h | h
    · subst h
      rfl
    · simp [h]
  · intro s raw storage rel hs htree hdec hstor hnp hsd
    show String.mk (parseSafUriL s.toList) = _
    rw [parseSafUriL_sd s.toList raw storage rel hs htree hdec hstor hnp hsd]
    rcases eq_or_ne rel [] with h | h
    · subst h
      rfl
    · simp [h]
  · intro s raw storage rel hs htree hdec hstor hnp hsd hprim
    show String.mk (parseSafUriL s.toList) = _
    rw [parseSafUriL_other_authority s.toList raw storage rel hs htree hdec
      hstor hnp hsd hprim]
    rcases eq_or_ne rel [] with h | h
    · subst h
      simp
    · simp [h]
  · intro s raw d hs htree hdec hd hnp
    show String.mk (parseSafUriL s.toList) = _
    rw [parseSafUriL_no_colon s.toList raw d hs htree hdec hd hnp]
    rcases eq_or_ne d [] with h | h
    · subst h
      rfl
    · simp [h]

/-- Witness for C7 at concrete handles: a plain path passes through, a
content URI without a tree segment degrades to the generic label, and an
SD-card authority is rendered readably. -/
theorem parseSafUri_readable_path_spec_witness :
    parseSafUriToReadablePath "file:///plain" = "file:///plain" ∧
    parseSafUriToReadablePath "content://x" = "Custom Folder" ∧
    parseSafUriToReadablePath "content://a/tree/sdcard:Pics" =
      "SD Card/Pics" :=
  ⟨parseSafUri_readable_path_spec.1 "file:///plain" (by decide),
   parseSafUri_readable_path_spec.2.1 "content://x" (by decide) (by decide),
   parseSafUri_readable_path_spec.2.2.2.2.1 "content://a/tree/sdcard:Pics"
     "sdcard:Pics".toList "sdcard".toList "Pics".toList (by decide) (by decide)
     (by decide) (by decide) (by decide) (by decide)⟩

/-! ## C5: helper lemmas about the comparator model -/

theorem char_toNat_inj (x y : Char) (h : x.toNat = y.toNat) : x = y := by
  have := congrArg Char.ofNat h
  simpa [Char.ofNat_toNat] using this

theorem cmpL_eq_iff : ∀ (a b : List Char), cmpL a b = .eq ↔ a = b := by
  intro a
  induction a with
  | nil => intro b; cases b <;> simp [cmpL]
  | cons x xs ih =>
    intro b
    cases b with
    | nil => simp [cmpL]
    | cons y ys =>
      simp only [cmpL]
      split_ifs with h1 h2
      · refine ⟨fun h => by simp at h, fun h => ?_⟩
        injection h with hx hxs
        subst hx
        exact absurd h1 (by omega)
      · refine ⟨fun h => by simp at h, fun h => ?_⟩
        injection h with hx hxs
        subst hx
        exact absurd h2 (by omega)
      · have hxy : x = y := char_toNat_inj x y (by omega)
        subst hxy
        simp [ih ys]

theorem cmpL_gt_iff_lt : ∀ (a b : List Char), cmpL a b = .gt ↔ cmpL b a = .lt := by
  intro a
  induction a with
  | nil => intro b; cases b <;> simp [cmpL]
  | cons x xs ih =>
    intro b
    cases b with
    | nil => simp [cmpL]
    | cons y ys =>
      simp only [cmpL]
      split_ifs with h1 h2 <;> simp [ih ys]
      omega

theorem cmpL_lt_trans : ∀ (a b c : List Char),
    cmpL a b = .lt → cmpL b c = .lt → cmpL a c = .lt := by
  intro a
  induction a with
  | nil =>
    intro b c hab hbc
    cases b with
    | nil => simp [cmpL] at hab
    | cons y ys =>
      cases c with
      | nil => simp [cmpL] at hbc
      | cons z zs => simp [cmpL]
  | cons x xs ih =>
    intro b c hab hbc
    cases b with
    | nil => simp [cmpL] at hab
    | cons y ys =>
      cases c with
      | nil => simp [cmpL] at hbc
      | cons z zs =>
        simp only [cmpL] at hab hbc ⊢
        by_cases h1 : x.toNat < y.toNat
        · by_cases h2 : y.toNat < z.toNat
          · simp [show x.toNat < z.toNat by omega]
          · rw [if_neg h2] at hbc
            by_cases h3 : z.toNat < y.toNat
            · rw [if_pos h3] at hbc
              exact absurd hbc (by decide)
            · rw [if_neg h3] at hbc
              simp [show x.toNat < z.toNat by omega]
        · rw [if_neg h1] at hab
          by_cases h1' : y.toNat < x.toNat
          · rw [if_pos h1'] at hab
            exact absurd hab (by decide)
          · rw [if_neg h1'] at hab
            by_cases h2 : y.toNat < z.toNat
            · simp [show x.toNat < z.toNat by omega]
            · rw [if_neg h2] at hbc
              by_cases h3 : z.toNat < y.toNat
              · rw [if_pos h3] at hbc
                exact absurd hbc (by decide)
              · rw [if_neg h3] at hbc
                rw [if_neg (show ¬ x.toNat < z.toNat by omega),
                  if_neg (show ¬ z.toNat < x.toNat by omega)]
                exact ih ys zs hab hbc

theorem cmpL_le_trans (a b c : List Char) (hab : cmpL a b ≠ .gt)
    (hbc : cmpL b c ≠ .gt) : cmpL a c ≠ .gt := by
  cases h1 : cmpL a b with
  | lt =>
    cases h2 : cmpL b c with
    | lt => simp [cmpL_lt_trans a b c h1 h2]
    | eq =>
      have hbceq := (cmpL_eq_iff b c).mp h2
      subst hbceq
      simp [h1]
    | gt => exact absurd h2 hbc
  | eq =>
    have habeq := (cmpL_eq_iff a b).mp h1
    subst habeq
    exact hbc
  | gt => exact absurd h1 hab

theorem localeCompare_le_zero (a b : String) :
    localeCompare a b ≤ 0 ↔
      (cmpL (lowerL a.toList) (lowerL b.toList) = .lt ∨
       (cmpL (lowerL a.toList) (lowerL b.toList) = .eq ∧
        cmpL a.toList b.toList ≠ .gt)) := by
  unfold localeCompare
  cases h1 : cmpL (lowerL a.toList) (lowerL b.toList) <;>
    cases h2 : cmpL a.toList b.toList <;> simp [h1, h2]

theorem folderLe_trans (x y z : FolderItem) (hxy : folderLe x y = true)
    (hyz : folderLe y z = true) : folderLe x z = true := by
  simp only [folderLe, decide_eq_true_eq] at hxy hyz ⊢
  rw [localeCompare_le_zero] at hxy hyz ⊢
  rcases hxy with h1 | ⟨h1, h1'⟩ <;> rcases hyz with h2 | ⟨h2, h2'⟩
  · exact Or.inl (cmpL_lt_trans _ _ _ h1 h2)
  · rw [(cmpL_eq_iff _ _).mp h2] at h1
    exact Or.inl h1
  · rw [← (cmpL_eq_iff _ _).mp h1] at h2
    exact Or.inl h2
  · refine Or.inr ⟨?_, cmpL_le_trans _ _ _ h1' h2'⟩
    rw [(cmpL_eq_iff _ _).mp h1]
    exact h2

theorem folderLe_total (x y : FolderItem) :
    (folderLe x y || folderLe y x) = true := by
  simp only [folderLe, Bool.or_eq_true, decide_eq_true_eq]
  rw [localeCompare_le_zero, localeCompare_le_zero]
  cases h1 : cmpL (lowerL x.name.toList) (lowerL y.name.toList) with
  | lt => exact Or.inl (Or.inl rfl)
  | gt => exact Or.inr (Or.inl ((cmpL_gt_iff_lt _ _).mp h1))
  | eq =>
    have heq := (cmpL_eq_iff _ _).mp h1
    cases h2 : cmpL x.name.toList y.name.toList with
    | lt =>
      have h2' : cmpL x.name.data y.name.data = Ordering.lt := h2
      exact Or.inl (Or.inr ⟨rfl, by simp [h2']⟩)
    | eq =>
      have h2' : cmpL x.name.data y.name.data = Ordering.eq := h2
      exact Or.inl (Or.inr ⟨rfl, by simp [h2']⟩)
    | gt =>
      have h3 : cmpL y.name.data x.name.data = Ordering.lt :=
        (cmpL_gt_iff_lt _ _).mp h2
      exact Or.inr (Or.inr ⟨(cmpL_eq_iff _ _).mpr heq.symm, by simp [h3]⟩)

/-- C5: every directory listing built by the service has its folders sorted
by case-insensitive name ascending (adjacent case-folded names are never in
strictly descending code-point order) and its notes sorted by `updatedAt`
descending, and the sorted lists are permutations of the inputs; the web
listing likewise sorts its notes by `updatedAt` descending and always has an
empty folder list. -/
theorem directory_listing_sorted (folders : List FolderItem)
    (notes : List NoteItem) (currentPath rootPath targetPath : String)
    (web : Option (List StoredWebNote)) :
    ((buildDirectoryContents folders notes currentPath rootPath).folders).Pairwise
      (fun a b => cmpL (lowerL a.name.toList) (lowerL b.name.toList) ≠ .gt) ∧
    ((buildDirectoryContents folders notes currentPath rootPath).notes).Pairwise
      (fun a b => b.updatedAt ≤ a.updatedAt) ∧
    ((buildDirectoryContents folders notes currentPath rootPath).folders).Perm
      folders ∧
    ((buildDirectoryContents folders notes currentPath rootPath).notes).Perm
      notes ∧
    ((getWebDirectoryContents web targetPath).notes).Pairwise
      (fun a b => b.updatedAt ≤ a.updatedAt) ∧
    (getWebDirectoryContents web targetPath).folders = [] := by
  have hnt : ∀ x y z : NoteItem, noteLe x y = true → noteLe y z = true →
      noteLe x z = true := by
    intro x y z h1 h2
    simp only [noteLe, decide_eq_true_eq] at h1 h2 ⊢
    omega
  have hntot : ∀ x y : NoteItem, (noteLe x y || noteLe y x) = true := by
    intro x y
    simp only [noteLe, Bool.or_eq_true, decide_eq_true_eq]
    omega
  have hfold : ∀ a b : FolderItem, folderLe a b = true →
      cmpL (lowerL a.name.toList) (lowerL b.name.toList) ≠ .gt := by
    intro a b h
    simp only [folderLe, decide_eq_true_eq] at h
    rcases (localeCompare_le_zero a.name b.name).mp h with h1 | ⟨h1, _⟩
    · have h1' : cmpL (lowerL a.name.data) (lowerL b.name.data) = Ordering.lt := h1
      simp [h1']
    · have h1' : cmpL (lowerL a.name.data) (lowerL b.name.data) = Ordering.eq := h1
      simp [h1']
  have hnote : ∀ a b : NoteItem, noteLe a b = true → b.updatedAt ≤ a.updatedAt := by
    intro a b h
    simpa [noteLe] using h
  refine ⟨?_, ?_, ?_, ?_, ?_, rfl⟩
  · exact (List.sorted_mergeSort folderLe_trans folderLe_total folders).imp
      (fun h => hfold _ _ h)
  · exact (List.sorted_mergeSort hnt hntot notes).imp (fun h => hnote _ _ h)
  · exact List.mergeSort_perm folders folderLe
  · exact List.mergeSort_perm notes noteLe
  · exact (List.sorted_mergeSort hnt hntot _).imp (fun h => hnote _ _ h)

/-! ## Concrete fixtures used by closed evaluations -/

def sampleNote : Note :=
  { filename := "b", content := "hello", createdAt := 0, updatedAt := 0,
    filePath := "" }

def storedA : StoredWebNote :=
  { id := none, filename := "a", content := "old", createdAt := 0,
    updatedAt := 0, filePath := "" }

def webState : ServiceState :=
  { platform := .web, notesDirectory := "Notes", customDirectory := none,
    userPreferences := DEFAULT_PREFERENCES, currentDirectory := none,
    notesCache := [], noteContentCache := [], lastCacheUpdate := 0 }

def nativeState : ServiceState :=
  { platform := .native, notesDirectory := "file:///doc/Notes/",
    customDirectory := none, userPreferences := DEFAULT_PREFERENCES,
    currentDirectory := none,
    notesCache := [("notes_file:///doc/Notes/", [])],
    noteContentCache := [("note_a_root", sampleNote)], lastCacheUpdate := 7 }

/-- A fault-free native file system holding exactly `a.md`. -/
def cleanFs : NativeFs :=
  { files := fun p => if p = "file:///doc/Notes/a.md" then some "old" else none,
    mtime := fun _ => 0, unlinkFaults := fun _ => false,
    writeFaults := fun _ => false }

def nativeWorld : World := { fs := cleanFs, web := none }

def emptyWebWorld : World := { fs := cleanFs, web := none }

def emptyStoreWorld : World := { fs := cleanFs, web := some [] }

def webWorldWithA : World := { fs := cleanFs, web := some [storedA] }

/-! ## C1: mutations invalidate the whole cache -/

/-- Both cache maps are empty and the shared stamp is reset. -/
def CacheCleared (st : ServiceState) : Prop :=
  st.notesCache = [] ∧ st.noteContentCache = [] ∧ st.lastCacheUpdate = 0

theorem cacheCleared_fresh (st : ServiceState) (h : CacheCleared st) :
    (∀ k : String, mapGet k st.notesCache = (none : Option (List NotePreview))) ∧
    (∀ k : String, mapGet k st.noteContentCache = (none : Option Note)) ∧
    (∀ t : Nat, cacheValidityDuration ≤ t → isCacheValid st t = false) := by
  obtain ⟨h1, h2, h3⟩ := h
  refine ⟨fun k => by rw [h1]; rfl, fun k => by rw [h2]; rfl, fun t ht => ?_⟩
  simp only [cacheValidityDuration] at ht
  simp only [isCacheValid, h3, Nat.sub_zero, cacheValidityDuration,
    decide_eq_false_iff_not]
  omega

theorem saveNote_ok_cacheCleared (st : ServiceState) (w : World) (note : Note)
    (oldFilename folderPath : Option String) (now : Nat)
    (hplat : ¬ st.platform = .web)
    (hok : (saveNote st w note oldFilename folderPath now).2.2 = .ok ()) :
    CacheCleared (saveNote st w note oldFilename folderPath now).1 := by
  simp only [saveNote, if_neg hplat] at hok ⊢
  revert hok
  rcases oldFilename with _ | old
  · cases hw : writeAsString w.fs
        (notePath (resolveTargetDir (getNotesDirectory st) folderPath)
          note.filename) note.content with
    | error e =>
      intro hok
      simp at hok
    | ok fs' =>
      intro hok
      exact ⟨rfl, rfl, rfl⟩
  · by_cases hne : old ≠ note.filename
    · simp only [if_pos hne]
      cases hw : writeAsString ((deleteNote st w old folderPath).2.1).fs
          (notePath (resolveTargetDir (getNotesDirectory st) folderPath)
            note.filename) note.content with
      | error e =>
        intro hok
        simp at hok
      | ok fs' =>
        intro hok
        exact ⟨rfl, rfl, rfl⟩
    · simp only [if_neg hne]
      cases hw : writeAsString w.fs
          (notePath (resolveTargetDir (getNotesDirectory st) folderPath)
            note.filename) note.content with
      | error e =>
        intro hok
        simp at hok
      | ok fs' =>
        intro hok
        exact ⟨rfl, rfl, rfl⟩

theorem deleteNote_ok_cacheCleared (st : ServiceState) (w : World) (id : String)
    (folderPath : Option String)
    (hplat : ¬ st.platform = .web)
    (hok : (deleteNote st w id folderPath).2.2 = .ok ()) :
    CacheCleared (deleteNote st w id folderPath).1 := by
  simp only [deleteNote, if_neg hplat] at hok ⊢
  revert hok
  cases hu : unlinkFile w.fs
      (notePath (resolveTargetDir (getNotesDirectory st) folderPath) id) with
  | error e =>
    intro hok
    simp at hok
  | ok fs' =>
    intro hok
    exact ⟨rfl, rfl, rfl⟩

/-- C1: after every successful `saveNote` or `deleteNote`, on every backend,
both cache maps are empty and the shared last-update stamp is zero — so
every previously cached key is gone and the validity check fails whenever
the clock is past the validity window, forcing the next listing or note
read to perform fresh I/O.  On the native backends this is `clearCache`
running before the call returns; on the web backend the branch never
touches the caches, which is covered by the invariant hypothesis that a
web-platform service state always has empty caches (no web code path ever
populates them). -/
theorem mutation_invalidates_cache (st : ServiceState) (w : World)
    (note : Note) (oldFilename folderPath : Option String) (id : String)
    (now : Nat) (hweb : st.platform = .web → CacheCleared st) :
    ((saveNote st w note oldFilename folderPath now).2.2 = .ok () →
      CacheCleared (saveNote st w note oldFilename folderPath now).1 ∧
      (∀ k, mapGet k (saveNote st w note oldFilename folderPath now).1.notesCache
        = (none : Option (List NotePreview))) ∧
      (∀ k, mapGet k
        (saveNote st w note oldFilename folderPath now).1.noteContentCache
        = (none : Option Note)) ∧
      (∀ t, cacheValidityDuration ≤ t →
        isCacheValid (saveNote st w note oldFilename folderPath now).1 t
          = false)) ∧
    ((deleteNote st w id folderPath).2.2 = .ok () →
      CacheCleared (deleteNote st w id folderPath).1 ∧
      (∀ k, mapGet k (deleteNote st w id folderPath).1.notesCache
        = (none : Option (List NotePreview))) ∧
      (∀ k, mapGet k (deleteNote st w id folderPath).1.noteContentCache
        = (none : Option Note)) ∧
      (∀ t, cacheValidityDuration ≤ t →
        isCacheValid (deleteNote st w id folderPath).1 t = false)) := by
  by_cases hp : st.platform = .web
  · have hs1 : (saveNote st w note oldFilename folderPath now).1 = st := by
      simp [saveNote, hp]
    have hd1 : (deleteNote st w id folderPath).1 = st := by
      simp [deleteNote, hp]
    have hc := hweb hp
    refine ⟨fun _ => ?_, fun _ => ?_⟩
    · rw [hs1]
      exact ⟨hc, (cacheCleared_fresh st hc).1, (cacheCleared_fresh st hc).2.1,
        (cacheCleared_fresh st hc).2.2⟩
    · rw [hd1]
      exact ⟨hc, (cacheCleared_fresh st hc).1, (cacheCleared_fresh st hc).2.1,
        (cacheCleared_fresh st hc).2.2⟩
  · refine ⟨fun hok => ?_, fun hok => ?_⟩
    · have hc := saveNote_ok_cacheCleared st w note oldFilename folderPath now hp hok
      exact ⟨hc, (cacheCleared_fresh _ hc).1, (cacheCleared_fresh _ hc).2.1,
        (cacheCleared_fresh _ hc).2.2⟩
    · have hc := deleteNote_ok_cacheCleared st w id folderPath hp hok
      exact ⟨hc, (cacheCleared_fresh _ hc).1, (cacheCleared_fresh _ hc).2.1,
        (cacheCleared_fresh _ hc).2.2⟩

/-- Witness for C1: a concrete native state with a non-empty cache, a
successful save and a successful delete, with the caches cleared and the
validity check failing at the window boundary. -/
theorem mutation_invalidates_cache_witness :
    (saveNote nativeState nativeWorld sampleNote none none 5).2.2 = .ok () ∧
    CacheCleared (saveNote nativeState nativeWorld sampleNote none none 5).1 ∧
    isCacheValid (saveNote nativeState nativeWorld sampleNote none none 5).1
      300000 = false ∧
    (deleteNote nativeState nativeWorld "a" none).2.2 = .ok () ∧
    CacheCleared (deleteNote nativeState nativeWorld "a" none).1 :=
  ⟨rfl,
   ((mutation_invalidates_cache nativeState nativeWorld sampleNote none none
      "a" 5 (fun h => absurd h (by decide))).1 rfl).1,
   ((mutation_invalidates_cache nativeState nativeWorld sampleNote none none
      "a" 5 (fun h => absurd h (by decide))).1 rfl).2.2.2 300000 (by decide),
   rfl,
   ((mutation_invalidates_cache nativeState nativeWorld sampleNote none none
      "a" 5 (fun h => absurd h (by decide))).2 rfl).1⟩

/-! ## C2: write-then-read on the web backend -/

/-- C2 (code bug, concrete evaluation): on the web backend, saving note
`b` with content `"hello"` into an empty store succeeds and stores exactly
one record keyed by filename `b`, yet immediately reading `b` back returns
nothing: `saveWebNote` persists the spread of the `Note` (which has no `id`
field) keyed by `filename`, while `getWebNote` looks records up by
`n.id === id`, so the lookup can never match a record this code wrote, and
`getNote` returns null instead of the written content. -/
theorem web_write_then_read_returns_null :
    (saveNote webState emptyStoreWorld sampleNote none none 5).2.2 = .ok () ∧
    ((saveNote webState emptyStoreWorld sampleNote none none 5).2.1.web.getD []).map
      (fun n => n.filename) = ["b"] ∧
    (getNote webState
      (saveNote webState emptyStoreWorld sampleNote none none 5).2.1
      5 "b" none).2 = none ∧
    sampleNote.content = "hello" := by
  exact ⟨rfl, by decide, by decide, rfl⟩

/-! ## C4: rename semantics -/

/-- C4 (counterexample): on the web backend `saveNote` ignores
`oldFilename` entirely (the web branch returns before the rename logic),
so renaming `a` to `b` in a store holding `a` succeeds yet leaves the
residual entry under `a` — the claim's "no residual entry under
oldFilename ... on every backend" is false. -/
theorem web_rename_keeps_old_entry :
    (saveNote webState webWorldWithA sampleNote (some "a") none 5).2.2
      = .ok () ∧
    "a" ≠ sampleNote.filename ∧
    ((saveNote webState webWorldWithA sampleNote (some "a") none 5).2.1.web.getD
      []).filter (fun n => n.filename == "a") ≠ [] := by
  exact ⟨rfl, by decide, by decide⟩

theorem string_append_inj (x m a b : String)
    (h : x ++ a ++ m = x ++ b ++ m) : a = b := by
  have hd := congrArg String.data h
  simp only [String.data_append] at hd
  exact String.ext (List.append_cancel_left (List.append_cancel_right hd))

theorem notePath_filename_inj (targetDir a b : String)
    (h : notePath targetDir a = notePath targetDir b) : a = b := by
  unfold notePath at h
  split_ifs at h with hc
  · exact string_append_inj (targetDir ++ "/") ".md" a b h
  · exact string_append_inj targetDir ".md" a b h

/-- C4 (amended): on the native backends, a rename (`saveNote` with an
`oldFilename` different from the new filename) whose old-entry deletion is
not platform-faulted and whose write is not platform-faulted succeeds,
leaves no entry under the old path (whether the old entry existed and was
deleted, or never existed), and leaves exactly the new content under the
new path.  (If the old entry's deletion fails the new content is still
persisted but the old entry may remain, and the web backend never removes
the old entry — see the counterexample.) -/
theorem saveNote_rename_native (st : ServiceState) (w : World) (note : Note)
    (old : String) (folderPath : Option String) (now : Nat)
    (hplat : ¬ st.platform = .web)
    (hne : old ≠ note.filename)
    (hdel : w.fs.unlinkFaults
      (notePath (resolveTargetDir (getNotesDirectory st) folderPath) old)
      = false)
    (hwrite : w.fs.writeFaults
      (notePath (resolveTargetDir (getNotesDirectory st) folderPath)
        note.filename) = false) :
    (saveNote st w note (some old) folderPath now).2.2 = .ok () ∧
    (saveNote st w note (some old) folderPath now).2.1.fs.files
      (notePath (resolveTargetDir (getNotesDirectory st) folderPath) old)
      = none ∧
    (saveNote st w note (some old) folderPath now).2.1.fs.files
      (notePath (resolveTargetDir (getNotesDirectory st) folderPath)
        note.filename) = some note.content := by
  have hpne : notePath (resolveTargetDir (getNotesDirectory st) folderPath) old
      ≠ notePath (resolveTargetDir (getNotesDirectory st) folderPath)
        note.filename :=
    fun hEq => hne (notePath_filename_inj _ _ _ hEq)
  simp only [saveNote, if_neg hplat, if_pos hne, deleteNote, unlinkFile]
  cases hf : w.fs.files
      (notePath (resolveTargetDir (getNotesDirectory st) folderPath) old) with
  | none =>
    simp [writeAsString, hwrite, hf, hpne]
  | some c =>
    simp [writeAsString, hwrite, hdel, hpne]

/-- Witness for C4: renaming `a` (present on disk) to `b` on the concrete
fault-free native file system removes `a.md` and creates `b.md` with the
new content. -/
theorem saveNote_rename_native_witness :
    (saveNote nativeState nativeWorld sampleNote (some "a") none 5).2.2
      = .ok () ∧
    (saveNote nativeState nativeWorld sampleNote (some "a") none 5).2.1.fs.files
      "file:///doc/Notes/a.md" = none ∧
    (saveNote nativeState nativeWorld sampleNote (some "a") none 5).2.1.fs.files
      "file:///doc/Notes/b.md" = some "hello" :=
  saveNote_rename_native nativeState nativeWorld sampleNote "a" none 5
    (by decide) (by decide) rfl rfl

/-! ## C6: failure propagation of deleteNote -/

/-- C6 (counterexample): on the web backend, deleting a note whose backing
entry does not exist (here: the `notes` key is entirely absent) resolves
successfully instead of signalling a failure — `deleteWebNote` returns
silently when the key is missing and catches every error it could hit, so
the claim's "deleteNote signals failure whenever the target entry does not
exist, on every backend" is false. -/
theorem web_delete_absent_succeeds :
    emptyWebWorld.web = none ∧
    (deleteNote webState emptyWebWorld "a" none).2.2 = .ok () := by
  exact ⟨rfl, rfl⟩

/-- C6 (amended): on the native backends `deleteNote` propagates the
platform failure when the target entry does not exist — it returns the
NotFound error, leaves the service state (including caches) untouched and
the file system unchanged.  (On the web backend `deleteNote` never
signals failure; see the counterexample.) -/
theorem deleteNote_native_absent_fails (st : ServiceState) (w : World)
    (id : String) (folderPath : Option String)
    (hplat : ¬ st.platform = .web)
    (habs : w.fs.files
      (notePath (resolveTargetDir (getNotesDirectory st) folderPath) id)
      = none) :
    (deleteNote st w id folderPath).2.2 = .error .notFound ∧
    (deleteNote st w id folderPath).1 = st ∧
    (deleteNote st w id folderPath).2.1 = w := by
  simp [deleteNote, if_neg hplat, unlinkFile, habs]

/-- Witness for C6 at a concrete absent entry on the native backend. -/
theorem deleteNote_native_absent_fails_witness :
    (deleteNote nativeState nativeWorld "zz" none).2.2 = .error .notFound :=
  (deleteNote_native_absent_fails nativeState nativeWorld "zz" none
    (by decide) rfl).1
